import Mathlib

/-!
Verification of the discrete-event simulation engine in
`SimEngine/SimEngine.py` (6tisch-simulator).

The Python class `SimEngine` owns a virtual clock (`asn`), an ordered list
of pending events (`events`, each a tuple `(asn, priority, cb, uniqueTag,
kwargs)`), run-control flags (`goOn`, `simPaused`), a counting semaphore
(`pauseSem`) and start/end hook lists.  Callbacks are modelled by opaque
identifiers interpreted by an explicit semantics environment `CbSem`; a
callback may mutate the engine state, and `none` models an exception
escaping the callback.  Python exceptions in the engine itself
(AssertionError from `assert`, TypeError from subscripting `None`,
IndexError from indexing an empty list) are modelled as explicit error
outcomes.  `scheduleIn` arithmetic is modelled over the exact rationals
(Python's `float` values at the inputs considered are exactly
representable, and `int()` on a float truncates toward zero).
-/

namespace SixTisch

/-- A `uniqueTag` value as used by the source: a Python pair such as
`(None, '_actionEndSim')` or `('SimEngine', '_actionPauseSim')`.  Events
scheduled with the default `uniqueTag=None` carry no tag (`Option.none`
at the event level). -/
abbrev Tag := Option String × String

/-- One entry of `self.events`: the tuple
`(asn, priority, cb, uniqueTag, kwargs)` built in `scheduleAtAsn`.
The callback and the keyword-argument bundle are opaque identifiers. -/
structure Event where
  asn : Int
  prio : Int
  cb : Nat
  tag : Option Tag
  kwargs : Nat
deriving DecidableEq, Repr

/-- The engine state owned by a live `SimEngine` instance: `self.asn`,
`self.events`, `self.goOn`, `self.simPaused`, the value of the counting
semaphore `self.pauseSem`, and the hook lists `self.startCb` /
`self.endCb` (hooks are opaque callback identifiers). -/
structure SimEngine where
  asn : Int
  events : List Event
  goOn : Bool
  simPaused : Bool
  pauseSemCount : Nat
  startCb : List Nat
  endCb : List Nat
deriving DecidableEq, Repr

/-- Fields as set at the end of `__init__`: `asn = 0`, empty queue,
`goOn = True`, `simPaused = False`, `Semaphore(0)`, empty hook lists. -/
def initEngine : SimEngine :=
  { asn := 0, events := [], goOn := true, simPaused := false
    pauseSemCount := 0, startCb := [], endCb := [] }

/-- The reserved tag `('SimEngine', '_actionPauseSim')` used by
`pauseAtAsn`. -/
def pauseSimTag : Tag := (some "SimEngine", "_actionPauseSim")

/-- The reserved tag `(None, '_actionEndSim')` used by `run` and
`terminateSimulation`. -/
def endSimTag : Tag := (none, "_actionEndSim")

/-- Reserved callback identifier standing for `self._actionPauseSim`. -/
def cbPauseSim : Nat := 0

/-- Reserved callback identifier standing for `self._actionEndSim`. -/
def cbEndSim : Nat := 1

/-- The removal condition of the loop body of `removeEvent`:
`self.events[i][3]==uniqueTag and not (exceptCurrentASN and
self.events[i][0]==self.asn)`. -/
def hitByRemove (curAsn : Int) (uniqueTag : Option Tag) (exceptCurrentASN : Bool)
    (e : Event) : Prop :=
  e.tag = uniqueTag ∧ ¬ (exceptCurrentASN = true ∧ e.asn = curAsn)

instance (curAsn : Int) (uniqueTag : Option Tag) (exceptCurrentASN : Bool)
    (e : Event) : Decidable (hitByRemove curAsn uniqueTag exceptCurrentASN e) := by
  unfold hitByRemove; infer_instance

/-- The scan of `removeEvent`: walk the list, dropping every entry that
matches `uniqueTag` and is not protected by the `exceptCurrentASN`
exemption (Python advances `i` only past kept entries, so the scan visits
every entry once; this recursion is that scan). -/
def removeLoop (curAsn : Int) (uniqueTag : Option Tag) (exceptCurrentASN : Bool) :
    List Event → List Event
  | [] => []
  | e :: rest =>
    if hitByRemove curAsn uniqueTag exceptCurrentASN e then
      removeLoop curAsn uniqueTag exceptCurrentASN rest
    else
      e :: removeLoop curAsn uniqueTag exceptCurrentASN rest

/-- `SimEngine.removeEvent(uniqueTag, exceptCurrentASN=True)`. -/
def removeEvent (st : SimEngine) (uniqueTag : Option Tag) (exceptCurrentASN : Bool) :
    SimEngine :=
  { st with events := removeLoop st.asn uniqueTag exceptCurrentASN st.events }

/-- The loop-continuation condition of the insertion scan in
`scheduleAtAsn`: `self.events[i][0] < asn or (self.events[i][0] == asn and
self.events[i][1] <= priority)`. -/
def insBefore (asn prio : Int) (e : Event) : Prop :=
  e.asn < asn ∨ (e.asn = asn ∧ e.prio ≤ prio)

instance (asn prio : Int) (e : Event) : Decidable (insBefore asn prio e) := by
  unfold insBefore; infer_instance

/-- The insertion scan of `scheduleAtAsn`: advance `i` while the entry at
`i` sorts no later than the new event (strictly earlier time, or equal
time and priority `<=` the new priority), then `insert(i, ...)`. -/
def insertLoop (asn prio : Int) (ev : Event) : List Event → List Event
  | [] => [ev]
  | e :: rest =>
    if insBefore asn prio e then e :: insertLoop asn prio ev rest
    else ev :: e :: rest

/-- `SimEngine.scheduleAtAsn(asn, cb, uniqueTag=None, priority=0,
exceptCurrentASN=True, kwargs={})`.  `none` models the AssertionError
raised by `assert asn > self.asn` (raised before any mutation).  When
`uniqueTag` is truthy (a pair; `None` is falsy) the matching events are
first removed, then the new tuple is inserted at the scanned position. -/
def scheduleAtAsn (st : SimEngine) (asn : Int) (cb : Nat) (uniqueTag : Option Tag)
    (priority : Int) (exceptCurrentASN : Bool) (kwargs : Nat) : Option SimEngine :=
  if st.asn < asn then
    let st1 := if uniqueTag.isSome then removeEvent st uniqueTag exceptCurrentASN else st
    some { st1 with
            events := insertLoop asn priority
              { asn := asn, prio := priority, cb := cb, tag := uniqueTag,
                kwargs := kwargs } st1.events }
  else none

/-- Python `int()` applied to an exact numeric value: truncation toward
zero. -/
def pyTrunc (q : ℚ) : Int := if 0 ≤ q then ⌊q⌋ else ⌈q⌉

/-- The absolute slot number computed by `scheduleIn`:
`int(self.asn + (float(delay) / float(self.settings.slotDuration)))`,
over exact arithmetic. -/
def scheduleInAsn (st : SimEngine) (slotDuration delay : ℚ) : Int :=
  pyTrunc ((st.asn : ℚ) + delay / slotDuration)

/-- `SimEngine.scheduleIn(delay, cb, uniqueTag=None, priority=0,
exceptCurrentASN=True, kwargs={})`: compute the absolute asn, then call
`scheduleAtAsn` with it and the unchanged remaining arguments. -/
def scheduleIn (st : SimEngine) (slotDuration delay : ℚ) (cb : Nat)
    (uniqueTag : Option Tag) (priority : Int) (exceptCurrentASN : Bool)
    (kwargs : Nat) : Option SimEngine :=
  scheduleAtAsn st (scheduleInAsn st slotDuration delay) cb uniqueTag priority
    exceptCurrentASN kwargs

/-- `SimEngine.scheduleAtStart(cb)`. -/
def scheduleAtStart (st : SimEngine) (cb : Nat) : SimEngine :=
  { st with startCb := st.startCb ++ [cb] }

/-- `SimEngine.scheduleAtEnd(cb)`. -/
def scheduleAtEnd (st : SimEngine) (cb : Nat) : SimEngine :=
  { st with endCb := st.endCb ++ [cb] }

/-- `SimEngine._actionResumeSim`: if paused, clear the flag and release
the semaphore (increment its counter) once. -/
def actionResumeSim (st : SimEngine) : SimEngine :=
  if st.simPaused then
    { st with simPaused := false, pauseSemCount := st.pauseSemCount + 1 }
  else st

/-- `SimEngine.play()` forwards to `_actionResumeSim`. -/
def play (st : SimEngine) : SimEngine := actionResumeSim st

/-- `SimEngine.pauseAtAsn(asn)`: when not paused, schedule
`_actionPauseSim` at `asn` under the reserved tag
`('SimEngine','_actionPauseSim')` with the default priority, the default
`exceptCurrentASN=True` and empty kwargs; otherwise do nothing.  `none`
models the AssertionError propagating out of `scheduleAtAsn`. -/
def pauseAtAsn (st : SimEngine) (asn : Int) : Option SimEngine :=
  if st.simPaused then some st
  else scheduleAtAsn st asn cbPauseSim (some pauseSimTag) 0 true 0

/-- `SimEngine._actionEndSim`: clear `self.goOn`. -/
def actionEndSim (st : SimEngine) : SimEngine := { st with goOn := false }

/-- `SimEngine.terminateSimulation(delay)`: schedule `_actionEndSim` at
`self.asn + delay` under the reserved tag `(None,'_actionEndSim')`. -/
def terminateSimulation (st : SimEngine) (delay : Int) : Option SimEngine :=
  scheduleAtAsn st (st.asn + delay) cbEndSim (some endSimTag) 0 true 0

/-- Semantics environment for callbacks: maps a callback identifier and a
kwargs identifier to a state transformer.  `none` models an exception
escaping the callback (it propagates out of `run`). -/
abbrev CbSem := Nat → Nat → SimEngine → Option SimEngine

/-- The callback environment in which no callback touches the engine. -/
def inertSem : CbSem := fun _ _ st => some st

/-- Outcome of the inner per-asn batch loop (`while True:` in `run`). -/
inductive BatchRes where
  /-- The loop broke out normally: the head event's time differs from the
  current asn. -/
  | ok (st : SimEngine) (trace : List (Int × Nat))
  /-- `self.events[0]` was evaluated on an empty list (IndexError). -/
  | indexError (st : SimEngine) (trace : List (Int × Nat))
  /-- A dispatched callback raised; the exception propagates. -/
  | cbError (st : SimEngine) (trace : List (Int × Nat))
  /-- Fuel exhausted (the Python loop would still be running). -/
  | outOfFuel (st : SimEngine) (trace : List (Int × Nat))
deriving DecidableEq, Repr

/-- The inner batch loop of `run`: repeatedly test
`self.events[0][0] != self.asn` (IndexError when the queue is empty),
pop the head and invoke its callback.  Each dispatch is recorded in the
trace as `(self.asn at the call, cb)`. -/
def innerLoop (sem : CbSem) : Nat → SimEngine → List (Int × Nat) → BatchRes
  | 0, st, tr => .outOfFuel st tr
  | fuel + 1, st, tr =>
    match st.events with
    | [] => .indexError st tr
    | e :: rest =>
      if e.asn ≠ st.asn then .ok st tr
      else
        match sem e.cb e.kwargs { st with events := rest } with
        | none => .cbError { st with events := rest } (tr ++ [(st.asn, e.cb)])
        | some st2 => innerLoop sem fuel st2 (tr ++ [(st.asn, e.cb)])

/-- Outcome of the dispatch loop of `run` (lines 126-155). -/
inductive RunRes where
  /-- The loop exited (empty queue found under the lock, or `goOn`
  false); `endCalls` lists the end hooks then invoked, in order. -/
  | ended (st : SimEngine) (trace : List (Int × Nat)) (endCalls : List Nat)
  /-- The head event's tag is `None`, so `c[1]` raised TypeError. -/
  | typeError (st : SimEngine) (trace : List (Int × Nat))
  /-- `assert self.events[0][0] >= self.asn` failed. -/
  | assertFail (st : SimEngine) (trace : List (Int × Nat))
  /-- IndexError from the inner loop. -/
  | indexError (st : SimEngine) (trace : List (Int × Nat))
  /-- A callback raised. -/
  | cbError (st : SimEngine) (trace : List (Int × Nat))
  /-- Fuel exhausted. -/
  | outOfFuel (st : SimEngine) (trace : List (Int × Nat))
deriving DecidableEq, Repr

/-- The dispatch trace recorded by a run, whatever the outcome. -/
def RunRes.trace : RunRes → List (Int × Nat)
  | .ended _ tr _ => tr
  | .typeError _ tr => tr
  | .assertFail _ tr => tr
  | .indexError _ tr => tr
  | .cbError _ tr => tr
  | .outOfFuel _ tr => tr

/-- The `while self.goOn:` loop of `run` together with the end-hook calls
on exit.  Each iteration: break when the queue is empty; unpack the head
tuple and evaluate `c[1]` (TypeError when the tag is `None`); unless the
tag's second component is `'_actionPauseSim'`, assert the head's time is
`>= self.asn`; set `self.asn` to the head's time; run the inner batch
loop. -/
def runLoop (sem : CbSem) : Nat → SimEngine → List (Int × Nat) → RunRes
  | 0, st, tr => .outOfFuel st tr
  | fuel + 1, st, tr =>
    if st.goOn = false then .ended st tr st.endCb
    else
      match st.events with
      | [] => .ended st tr st.endCb
      | e :: _ =>
        match e.tag with
        | none => .typeError st tr
        | some c =>
          if c.2 ≠ "_actionPauseSim" ∧ e.asn < st.asn then .assertFail st tr
          else
            match innerLoop sem (fuel + 1) { st with asn := e.asn } tr with
            | .ok st2 tr2 => runLoop sem fuel st2 tr2
            | .indexError st2 tr2 => .indexError st2 tr2
            | .cbError st2 tr2 => .cbError st2 tr2
            | .outOfFuel st2 tr2 => .outOfFuel st2 tr2

/-! ### Singleton lifecycle

Python attribute semantics relevant to `__new__` / `__init__` /
`destroy`: an attribute write through `self` lands in the instance
`__dict__`; an attribute read through `self` falls back to the class
attribute when the instance `__dict__` has no entry; `del self.__dict__`
empties the instance `__dict__` (the object itself survives, still
referenced by the class attribute `_instance`). -/

/-- The instance `__dict__` of the singleton object, restricted to the
attributes the lifecycle claims depend on.  `attrInit` is the instance
entry for `_init` (absent before `__init__` first runs and after
`del self.__dict__`); `attrInstanceSet` records whether `destroy` wrote
the instance-level `_instance = None` entry; `core` bundles the engine
fields set by `__init__` (`asn`, `events`, flags, hooks). -/
structure InstDict where
  attrInit : Option Bool
  attrInstanceSet : Bool
  core : Option SimEngine
deriving DecidableEq, Repr

/-- An instance `__dict__` with no entries. -/
def emptyDict : InstDict :=
  { attrInit := none, attrInstanceSet := false, core := none }

/-- Process-wide state: the class attributes `SimEngine._instance`
(whether the registry slot holds the object) and `SimEngine._init`, and
the singleton object's `__dict__` when the object has been allocated. -/
structure ProcState where
  clsInstance : Bool
  clsInit : Bool
  obj : Option InstDict
deriving DecidableEq, Repr

/-- The state of a fresh process: `_instance = None`, `_init = False`,
no object allocated. -/
def initialProc : ProcState :=
  { clsInstance := false, clsInit := false, obj := none }

/-- `SimEngine.__new__`: when `cls._instance` is falsy, allocate the
object (empty `__dict__`) and store it in the class attribute; either
way the stored instance is returned. -/
def newSingleton (p : ProcState) : ProcState :=
  if p.clsInstance then p
  else { p with clsInstance := true, obj := some emptyDict }

/-- The read `self._init`: instance `__dict__` first, class attribute as
fallback. -/
def lookupInit (p : ProcState) (d : InstDict) : Bool :=
  d.attrInit.getD p.clsInit

/-- `SimEngine.__init__(cpuID, runNum, failIfNotInit)` restricted to the
lifecycle-relevant effects: raise EnvironmentError (`none`) when
`failIfNotInit` holds and `self._init` reads false; return unchanged when
`self._init` reads true; otherwise set the instance attribute
`_init = True` and initialize the engine fields. -/
def initSingleton (p : ProcState) (failIfNotInit : Bool) : Option ProcState :=
  match p.obj with
  | none => none
  | some d =>
    if failIfNotInit ∧ lookupInit p d = false then none
    else if lookupInit p d then some p
    else some { p with obj := some { d with attrInit := some true, core := some initEngine } }

/-- `SimEngine(...)`: `__new__` then `__init__`. -/
def construct (p : ProcState) (failIfNotInit : Bool) : Option ProcState :=
  initSingleton (newSingleton p) failIfNotInit

/-- `del self.__dict__`: every instance-attribute entry is erased,
whatever it held. -/
def deleteDict (_ : InstDict) : InstDict := emptyDict

/-- `SimEngine.destroy()`: after `self.propagation.destroy()` (external
collaborator), execute `self._instance = None` and `self._init = False` —
both instance-attribute writes, leaving the class attributes untouched —
and then `del self.__dict__`, which erases the whole instance `__dict__`
including those two fresh entries.  The net effect on the modelled state
is an empty instance `__dict__`; the class-level registry slot keeps
holding the object. -/
def destroy (p : ProcState) : ProcState :=
  match p.obj with
  | none => p
  | some d =>
    let d1 : InstDict := { d with attrInstanceSet := true }
    let d2 : InstDict := { d1 with attrInit := some false }
    { p with obj := some (deleteDict d2) }

/-! ### Derived notions used by the statements -/

/-- The dispatch trace of a batch, whatever the outcome. -/
def BatchRes.trace : BatchRes → List (Int × Nat)
  | .ok _ tr => tr
  | .indexError _ tr => tr
  | .cbError _ tr => tr
  | .outOfFuel _ tr => tr

/-- The queue ordering key of the spec, as a relation between adjacent
entries: earlier time, or equal time and no larger priority. -/
def keyLE (a b : Event) : Prop :=
  a.asn < b.asn ∨ (a.asn = b.asn ∧ a.prio ≤ b.prio)

instance (a b : Event) : Decidable (keyLE a b) := by
  unfold keyLE; infer_instance

/-- The queue is sorted by (time ascending, priority ascending): every
entry sorts no later than every entry after it.  Insertion-order
tie-break is expressed separately, through the position at which
`scheduleAtAsn` inserts. -/
def EventsSorted (l : List Event) : Prop := l.Pairwise keyLE

instance (l : List Event) : Decidable (EventsSorted l) := by
  unfold EventsSorted; infer_instance

/-- A queue operation issued by a collaborator between inspection
points. -/
inductive SchedOp where
  | sched (asn : Int) (priority : Int) (cb : Nat) (uniqueTag : Option Tag)
      (exceptCurrentASN : Bool) (kwargs : Nat)
  | rem (uniqueTag : Option Tag) (exceptCurrentASN : Bool)
deriving DecidableEq, Repr

/-- Apply one operation.  A `scheduleAtAsn` call whose `assert` fails
raises before touching the queue, so the state observable afterwards is
the unchanged one. -/
def applyOp (st : SimEngine) : SchedOp → SimEngine
  | .sched a p c t ex k => (scheduleAtAsn st a c t p ex k).getD st
  | .rem t ex => removeEvent st t ex

/-- Shorthand for building a priority-0 event record. -/
def mkEv (a : Int) (c : Nat) (t : Option Tag) : Event :=
  { asn := a, prio := 0, cb := c, tag := t, kwargs := 0 }

/-! Concrete states and callback environments used by witnesses and
counterexamples. -/

/-- Queue with one pending pause sentinel at asn 10 (the state produced
by `pauseAtAsn(10)` from a fresh engine). -/
def pausePendingSt : SimEngine :=
  { initEngine with events := [mkEv 10 cbPauseSim (some pauseSimTag)] }

/-- A fresh engine with one end hook and a single tagged event at asn 1
whose callback schedules nothing. -/
def lastEventSt : SimEngine :=
  { initEngine with events := [mkEv 1 7 (some (none, "collab"))], endCb := [9] }

/-- A fresh engine whose queue holds a tagged event and an untagged event
both at asn 5 (the tagged one first). -/
def mixedTagSt : SimEngine :=
  { initEngine with events := [mkEv 5 1 (some (none, "tagged")), mkEv 5 2 none] }

/-- A fresh engine with two tagged events at distinct future times 3 and
5. -/
def twoEventSt : SimEngine :=
  { initEngine with events := [mkEv 3 7 (some (none, "ea")), mkEv 5 8 (some (none, "eb"))] }

/-- Mid-batch state at asn 5: the event being examined carries callback
1, and a later event sits at asn 7. -/
def batchSt : SimEngine :=
  { initEngine with
    asn := 5
    events := [mkEv 5 1 (some (none, "ba")), mkEv 7 3 (some (none, "bc"))] }

/-- Callback environment where callback 1 schedules (by sorted
insertion) a fresh event with callback 2 at the current asn of the state
it runs in, and every other callback does nothing. -/
def batchSem : CbSem := fun cb _ s =>
  if cb = 1 then
    some { s with events := insertLoop s.asn 0 (mkEv s.asn 2 (some (none, "bw"))) s.events }
  else some s

/-- The spec's worked example: from asn 0 schedule (time 5, priority 0),
(time 5, priority 1), (time 3, priority 0), all untagged. -/
def exampleOps : List SchedOp :=
  [ .sched 5 0 10 none true 0, .sched 5 1 11 none true 0, .sched 3 0 12 none true 0 ]

/-- Fresh engine with one registered end hook (identifier 9). -/
def endHookSt : SimEngine := { initEngine with endCb := [9] }

/-- The state reached after `lastEventSt`'s single event is dispatched:
clock at 1, queue empty, end hook still registered but never invoked. -/
def lastEventResSt : SimEngine := { initEngine with asn := 1, endCb := [9] }

/-- Fresh engine whose only queued event is untagged. -/
def untaggedHeadSt : SimEngine := { initEngine with events := [mkEv 5 2 none] }

/-- Queue with the pause sentinel rescheduled to asn 20. -/
def pauseMovedSt : SimEngine :=
  { initEngine with events := [mkEv 20 cbPauseSim (some pauseSimTag)] }

/-- A paused engine (`simPaused` set). -/
def pausedSt : SimEngine := { initEngine with simPaused := true }

/-- Two pending events under the same tag (at 4 and 6), from a fresh
clock. -/
def dupTagSt : SimEngine :=
  { initEngine with
    events := [mkEv 4 3 (some (none, "dup")), mkEv 6 4 (some (none, "dup"))] }

/-- Result of rescheduling tag `(None,'dup')` to asn 9 on `dupTagSt`. -/
def dupTagResSt : SimEngine :=
  { initEngine with events := [mkEv 9 5 (some (none, "dup"))] }

/-- One pending untagged event at (time 5, priority 0). -/
def fifoSt : SimEngine := { initEngine with events := [mkEv 5 1 none] }

/-- Result of scheduling a second (time 5, priority 0) event on `fifoSt`:
the newcomer lands after the earlier equal-key event. -/
def fifoResSt : SimEngine :=
  { initEngine with events := [mkEv 5 1 none, mkEv 5 2 none] }

/-- Result state of the worked batch on `batchSt` under `batchSem`. -/
def batchResSt : SimEngine :=
  { initEngine with asn := 5, events := [mkEv 7 3 (some (none, "bc"))] }

/-- Process state holding a live fully-initialized singleton. -/
def liveProc : ProcState :=
  { clsInstance := true, clsInit := false
    obj := some { attrInit := some true, attrInstanceSet := false, core := some initEngine } }

/-- Process state right after `destroy()`: the class attribute still
holds the object, whose `__dict__` is empty. -/
def deadProc : ProcState :=
  { clsInstance := true, clsInit := false, obj := some emptyDict }

/-- An instance `__dict__` with heavily used engine state, for
exercising destruction from an arbitrary dirty state. -/
def dirtyDict : InstDict :=
  { attrInit := some true, attrInstanceSet := false
    core := some { asn := 42, events := [mkEv 50 1 none], goOn := false
                   simPaused := true, pauseSemCount := 3, startCb := [1], endCb := [2] } }

/-! ### Helper lemmas: removal scan -/

theorem removeLoop_sublist (ca : Int) (t : Option Tag) (ex : Bool) :
    ∀ l : List Event, List.Sublist (removeLoop ca t ex l) l := by
  intro l
  induction l with
  | nil => simp [removeLoop]
  | cons e rest ih =>
    by_cases h : hitByRemove ca t ex e
    · simpa [removeLoop, h] using ih.cons e
    · simpa [removeLoop, h] using ih.cons₂ e

theorem mem_removeLoop (ca : Int) (t : Option Tag) (ex : Bool) (x : Event) :
    ∀ l : List Event,
      (x ∈ removeLoop ca t ex l ↔ x ∈ l ∧ ¬ hitByRemove ca t ex x) := by
  intro l
  induction l with
  | nil => simp [removeLoop]
  | cons e rest ih =>
    by_cases h : hitByRemove ca t ex e
    · simp only [removeLoop, if_pos h, ih, List.mem_cons]
      constructor
      · rintro ⟨hm, hx⟩; exact ⟨Or.inr hm, hx⟩
      · rintro ⟨hm | hm, hx⟩
        · exact absurd (hm ▸ h) hx
        · exact ⟨hm, hx⟩
    · simp only [removeLoop, if_neg h, List.mem_cons, ih]
      constructor
      · rintro (rfl | ⟨hm, hx⟩)
        · exact ⟨Or.inl rfl, h⟩
        · exact ⟨Or.inr hm, hx⟩
      · rintro ⟨rfl | hm, hx⟩
        · exact Or.inl rfl
        · exact Or.inr ⟨hm, hx⟩

theorem removeLoop_countP (ca : Int) (t : Option Tag) (ex : Bool)
    (p : Event → Bool) : ∀ l : List Event,
    (removeLoop ca t ex l).countP p =
      l.countP (fun e => p e && ! decide (hitByRemove ca t ex e)) := by
  intro l
  induction l with
  | nil => simp [removeLoop]
  | cons e rest ih =>
    by_cases h : hitByRemove ca t ex e
    · simp [removeLoop, if_pos h, ih, List.countP_cons, h]
    · simp [removeLoop, if_neg h, ih, List.countP_cons, h]

/-! ### Helper lemmas: insertion scan -/

theorem insertLoop_decomp (asn prio : Int) (ev : Event) :
    ∀ l : List Event,
      insertLoop asn prio ev l =
        l.takeWhile (fun e => decide (insBefore asn prio e)) ++
          ev :: l.dropWhile (fun e => decide (insBefore asn prio e)) := by
  intro l
  induction l with
  | nil => simp [insertLoop]
  | cons e rest ih =>
    by_cases h : insBefore asn prio e
    · simp [insertLoop, h, List.takeWhile_cons, List.dropWhile_cons, ih]
    · simp [insertLoop, h, List.takeWhile_cons, List.dropWhile_cons]

theorem mem_insertLoop (asn prio : Int) (ev : Event) (x : Event) :
    ∀ l : List Event, (x ∈ insertLoop asn prio ev l ↔ x = ev ∨ x ∈ l) := by
  intro l
  induction l with
  | nil => simp [insertLoop]
  | cons e rest ih =>
    by_cases h : insBefore asn prio e
    · simp only [insertLoop, if_pos h, List.mem_cons, ih]; tauto
    · simp only [insertLoop, if_neg h, List.mem_cons]

theorem insertLoop_countP (asn prio : Int) (ev : Event) (p : Event → Bool) :
    ∀ l : List Event,
      (insertLoop asn prio ev l).countP p =
        l.countP p + (if p ev then 1 else 0) := by
  intro l
  induction l with
  | nil => simp [insertLoop, List.countP_cons]
  | cons e rest ih =>
    by_cases h : insBefore asn prio e
    · simp only [insertLoop, if_pos h, List.countP_cons, ih]; omega
    · simp only [insertLoop, if_neg h, List.countP_cons]

/-! ### Helper lemmas: the ordering key -/

theorem keyLE_trans {a b c : Event} (h1 : keyLE a b) (h2 : keyLE b c) : keyLE a c := by
  unfold keyLE at *
  rcases h1 with h1 | ⟨h1, h1'⟩ <;> rcases h2 with h2 | ⟨h2, h2'⟩
  · exact Or.inl (h1.trans h2)
  · exact Or.inl (h2 ▸ h1)
  · exact Or.inl (h1 ▸ h2)
  · exact Or.inr ⟨h1.trans h2, h1'.trans h2'⟩

theorem keyLE_asn {a b : Event} (h : keyLE a b) : a.asn ≤ b.asn := by
  rcases h with h | ⟨h, _⟩
  · exact le_of_lt h
  · exact le_of_eq h

theorem insBefore_iff_keyLE (asn prio : Int) (e ev : Event)
    (ha : ev.asn = asn) (hp : ev.prio = prio) :
    insBefore asn prio e ↔ keyLE e ev := by
  subst ha; subst hp; rfl

theorem not_insBefore_keyLE (asn prio : Int) (e ev : Event)
    (ha : ev.asn = asn) (hp : ev.prio = prio)
    (h : ¬ insBefore asn prio e) : keyLE ev e := by
  subst ha; subst hp
  unfold insBefore at h
  push_neg at h
  unfold keyLE
  rcases lt_trichotomy ev.asn e.asn with hlt | heq | hgt
  · exact Or.inl hlt
  · exact Or.inr ⟨heq, le_of_lt (h.2 heq.symm)⟩
  · exact absurd hgt h.1.not_lt

theorem pairwise_insertLoop (asn prio : Int) (ev : Event)
    (ha : ev.asn = asn) (hp : ev.prio = prio) :
    ∀ l : List Event, l.Pairwise keyLE → (insertLoop asn prio ev l).Pairwise keyLE := by
  intro l
  induction l with
  | nil => intro _; simp [insertLoop]
  | cons e rest ih =>
    intro hl
    rcases List.pairwise_cons.1 hl with ⟨hrel, hrest⟩
    by_cases h : insBefore asn prio e
    · rw [insertLoop, if_pos h]
      refine List.pairwise_cons.2 ⟨?_, ih hrest⟩
      intro x hx
      rcases (mem_insertLoop asn prio ev x rest).1 hx with rfl | hx
      · exact (insBefore_iff_keyLE asn prio e x ha hp).1 h
      · exact hrel x hx
    · rw [insertLoop, if_neg h]
      refine List.pairwise_cons.2 ⟨?_, hl⟩
      intro x hx
      rcases List.mem_cons.1 hx with rfl | hx
      · exact not_insBefore_keyLE asn prio x ev ha hp h
      · exact keyLE_trans (not_insBefore_keyLE asn prio e ev ha hp h) (hrel x hx)

theorem dropWhile_no_equal_key (asn prio : Int) :
    ∀ l : List Event, l.Pairwise keyLE →
      ∀ e ∈ l.dropWhile (fun e => decide (insBefore asn prio e)),
        ¬ (e.asn = asn ∧ e.prio = prio) := by
  intro l
  induction l with
  | nil => simp
  | cons e rest ih =>
    intro hl x hx
    rcases List.pairwise_cons.1 hl with ⟨hrel, hrest⟩
    by_cases h : insBefore asn prio e
    · rw [List.dropWhile_cons, if_pos (by simpa using h)] at hx
      exact ih hrest x hx
    · rw [List.dropWhile_cons, if_neg (by simpa using h)] at hx
      rintro ⟨hxa, hxp⟩
      rcases List.mem_cons.1 hx with rfl | hx
      · exact h (Or.inr ⟨hxa, le_of_eq hxp⟩)
      · have hex : keyLE e x := hrel x hx
        rcases hex with hlt | ⟨heq, hle⟩
        · exact h (Or.inl (hxa ▸ hlt))
        · exact h (Or.inr ⟨heq.trans hxa, hle.trans (le_of_eq hxp)⟩)

theorem pairwise_removeLoop (ca : Int) (t : Option Tag) (ex : Bool)
    (l : List Event) (hl : l.Pairwise keyLE) :
    (removeLoop ca t ex l).Pairwise keyLE :=
  hl.sublist (removeLoop_sublist ca t ex l)

/-! ### Helper lemmas: traces only grow -/

theorem innerLoop_trace_extend (sem : CbSem) :
    ∀ (fuel : Nat) (st : SimEngine) (tr : List (Int × Nat)),
      ∃ s, (innerLoop sem fuel st tr).trace = tr ++ s := by
  intro fuel
  induction fuel with
  | zero =>
    intro st tr
    exact ⟨[], by simp [innerLoop, BatchRes.trace]⟩
  | succ fuel ih =>
    intro st tr
    match hev : st.events with
    | [] => exact ⟨[], by simp [innerLoop, hev, BatchRes.trace]⟩
    | e :: rest =>
      by_cases hasn : e.asn = st.asn
      · cases hsem2 : sem e.cb e.kwargs { st with events := rest } with
        | none =>
          exact ⟨[(st.asn, e.cb)],
            by simp [innerLoop, hev, hasn, hsem2, BatchRes.trace]⟩
        | some st2 =>
          obtain ⟨s, hs⟩ := ih st2 (tr ++ [(st.asn, e.cb)])
          refine ⟨(st.asn, e.cb) :: s, ?_⟩
          simp only [innerLoop, hev, hasn, ne_eq, not_true_eq_false, if_false,
            hsem2, hs, List.append_assoc, List.singleton_append]
      · exact ⟨[], by simp [innerLoop, hev, hasn, BatchRes.trace]⟩

theorem runLoop_trace_extend (sem : CbSem) :
    ∀ (fuel : Nat) (st : SimEngine) (tr : List (Int × Nat)),
      ∃ s, (runLoop sem fuel st tr).trace = tr ++ s := by
  intro fuel
  induction fuel with
  | zero =>
    intro st tr
    exact ⟨[], by simp [runLoop, RunRes.trace]⟩
  | succ fuel ih =>
    intro st tr
    by_cases hgo : st.goOn = false
    · exact ⟨[], by simp [runLoop, hgo, RunRes.trace]⟩
    · match hev : st.events with
      | [] => exact ⟨[], by simp [runLoop, hgo, hev, RunRes.trace]⟩
      | e :: rest =>
        match htag : e.tag with
        | none => exact ⟨[], by simp [runLoop, hgo, hev, htag, RunRes.trace]⟩
        | some c =>
          by_cases hass : c.2 ≠ "_actionPauseSim" ∧ e.asn < st.asn
          · exact ⟨[], by simp [runLoop, hgo, hev, htag, hass, RunRes.trace]⟩
          · have hgo' : st.goOn = true := by
              revert hgo; cases st.goOn <;> simp
            obtain ⟨s1, hs1⟩ :=
              innerLoop_trace_extend sem (fuel + 1) { st with asn := e.asn } tr
            cases hinner : innerLoop sem (fuel + 1) { st with asn := e.asn } tr with
            | ok st2 tr2 =>
              obtain ⟨s2, hs2⟩ := ih st2 tr2
              refine ⟨s1 ++ s2, ?_⟩
              have htr2 : tr2 = tr ++ s1 := by
                simpa [hinner, BatchRes.trace] using hs1
              rw [hev, hgo'] at hinner
              rw [htr2] at hs2
              have hstep :
                  (runLoop sem (fuel + 1) st tr).trace =
                    (runLoop sem fuel st2 (tr ++ s1)).trace := by
                rw [htr2] at hinner
                simp [runLoop, hgo', hev, htag, hass, hinner]
              rw [hstep, hs2, List.append_assoc]
            | indexError st2 tr2 =>
              refine ⟨s1, ?_⟩
              have htr2 : tr2 = tr ++ s1 := by
                simpa [hinner, BatchRes.trace] using hs1
              rw [hev, hgo'] at hinner
              simp [runLoop, hgo', hev, htag, hass, hinner, RunRes.trace, htr2]
            | cbError st2 tr2 =>
              refine ⟨s1, ?_⟩
              have htr2 : tr2 = tr ++ s1 := by
                simpa [hinner, BatchRes.trace] using hs1
              rw [hev, hgo'] at hinner
              simp [runLoop, hgo', hev, htag, hass, hinner, RunRes.trace, htr2]
            | outOfFuel st2 tr2 =>
              refine ⟨s1, ?_⟩
              have htr2 : tr2 = tr ++ s1 := by
                simpa [hinner, BatchRes.trace] using hs1
              rw [hev, hgo'] at hinner
              simp [runLoop, hgo', hev, htag, hass, hinner, RunRes.trace, htr2]

/-! ### Helper lemmas: single steps of the two loops -/

theorem innerLoop_step_empty (sem : CbSem) (fuel : Nat) (st : SimEngine)
    (tr : List (Int × Nat)) (hev : st.events = []) :
    innerLoop sem (fuel + 1) st tr = .indexError st tr := by
  conv_lhs => rw [innerLoop]
  rw [hev]

theorem innerLoop_step_exit (sem : CbSem) (fuel : Nat) (st : SimEngine)
    (tr : List (Int × Nat)) (e : Event) (rest : List Event)
    (hev : st.events = e :: rest) (hasn : e.asn ≠ st.asn) :
    innerLoop sem (fuel + 1) st tr = .ok st tr := by
  conv_lhs => rw [innerLoop]
  rw [hev]
  simp [hasn]

theorem innerLoop_step_pop (sem : CbSem) (fuel : Nat) (st : SimEngine)
    (tr : List (Int × Nat)) (e : Event) (rest : List Event)
    (hev : st.events = e :: rest) (hasn : e.asn = st.asn) :
    innerLoop sem (fuel + 1) st tr =
      match sem e.cb e.kwargs { st with events := rest } with
      | none => .cbError { st with events := rest } (tr ++ [(st.asn, e.cb)])
      | some st2 => innerLoop sem fuel st2 (tr ++ [(st.asn, e.cb)]) := by
  conv_lhs => rw [innerLoop]
  rw [hev]
  simp [hasn]

theorem runLoop_step_stop (sem : CbSem) (fuel : Nat) (st : SimEngine)
    (tr : List (Int × Nat)) (hgo : st.goOn = false) :
    runLoop sem (fuel + 1) st tr = .ended st tr st.endCb := by
  conv_lhs => rw [runLoop]
  rw [hgo]
  simp

theorem runLoop_step_empty (sem : CbSem) (fuel : Nat) (st : SimEngine)
    (tr : List (Int × Nat)) (hgo : st.goOn = true) (hev : st.events = []) :
    runLoop sem (fuel + 1) st tr = .ended st tr st.endCb := by
  conv_lhs => rw [runLoop]
  rw [hgo, hev]
  simp

theorem runLoop_step_typeError (sem : CbSem) (fuel : Nat) (st : SimEngine)
    (tr : List (Int × Nat)) (e : Event) (rest : List Event)
    (hgo : st.goOn = true) (hev : st.events = e :: rest) (htag : e.tag = none) :
    runLoop sem (fuel + 1) st tr = .typeError st tr := by
  conv_lhs => rw [runLoop]
  rw [hgo, hev]
  simp [htag]

theorem runLoop_step_assertFail (sem : CbSem) (fuel : Nat) (st : SimEngine)
    (tr : List (Int × Nat)) (e : Event) (rest : List Event) (c : Tag)
    (hgo : st.goOn = true) (hev : st.events = e :: rest) (htag : e.tag = some c)
    (hass : c.2 ≠ "_actionPauseSim" ∧ e.asn < st.asn) :
    runLoop sem (fuel + 1) st tr = .assertFail st tr := by
  conv_lhs => rw [runLoop]
  rw [hgo, hev]
  simp [htag, hass]

theorem runLoop_step_batch (sem : CbSem) (fuel : Nat) (st : SimEngine)
    (tr : List (Int × Nat)) (e : Event) (rest : List Event) (c : Tag)
    (hgo : st.goOn = true) (hev : st.events = e :: rest) (htag : e.tag = some c)
    (hass : ¬ (c.2 ≠ "_actionPauseSim" ∧ e.asn < st.asn)) :
    runLoop sem (fuel + 1) st tr =
      match innerLoop sem (fuel + 1) { st with asn := e.asn } tr with
      | .ok st2 tr2 => runLoop sem fuel st2 tr2
      | .indexError st2 tr2 => .indexError st2 tr2
      | .cbError st2 tr2 => .cbError st2 tr2
      | .outOfFuel st2 tr2 => .outOfFuel st2 tr2 := by
  conv_lhs => rw [runLoop]
  rw [hgo, hev]
  simp [htag, hass]

/-! ### Helper lemmas: which fields each operation can change -/

theorem removeEvent_asn (st : SimEngine) (t : Option Tag) (ex : Bool) :
    (removeEvent st t ex).asn = st.asn := rfl

theorem scheduleAtAsn_fields {st st' : SimEngine} {a : Int} {cb : Nat}
    {t : Option Tag} {p : Int} {ex : Bool} {kw : Nat}
    (h : scheduleAtAsn st a cb t p ex kw = some st') :
    st'.asn = st.asn ∧ st'.goOn = st.goOn ∧ st'.simPaused = st.simPaused ∧
      st'.pauseSemCount = st.pauseSemCount ∧ st'.endCb = st.endCb := by
  unfold scheduleAtAsn at h
  split at h
  · injection h with h
    subst h
    by_cases ht : t.isSome <;> simp [ht, removeEvent]
  · cases h

theorem scheduleAtAsn_events {st st' : SimEngine} {a : Int} {cb : Nat}
    {t : Option Tag} {p : Int} {ex : Bool} {kw : Nat}
    (h : scheduleAtAsn st a cb t p ex kw = some st') :
    st'.events =
      insertLoop a p { asn := a, prio := p, cb := cb, tag := t, kwargs := kw }
        (if t.isSome then removeLoop st.asn t ex st.events else st.events) := by
  unfold scheduleAtAsn at h
  split at h
  · injection h with h
    subst h
    by_cases ht : t.isSome <;> simp [ht, removeEvent]
  · cases h

theorem scheduleAtAsn_lt {st st' : SimEngine} {a : Int} {cb : Nat}
    {t : Option Tag} {p : Int} {ex : Bool} {kw : Nat}
    (h : scheduleAtAsn st a cb t p ex kw = some st') : st.asn < a := by
  unfold scheduleAtAsn at h
  split at h
  · assumption
  · cases h

/-! ### Helper lemma: the run loop over inert callbacks -/

/-- Dispatch of a queue of tagged events at strictly increasing future
times, with callbacks that do not touch the engine: every event is
dispatched, in queue order, with the clock set to its time at the moment
of the call. -/
theorem runLoop_inert_dispatch :
    ∀ (es : List Event) (st : SimEngine) (tr : List (Int × Nat)) (fuel : Nat),
      st.events = es →
      es.Pairwise (fun a b => a.asn < b.asn) →
      (∀ e ∈ es, st.asn < e.asn) →
      (∀ e ∈ es, e.tag.isSome = true) →
      st.goOn = true →
      es.length + 1 ≤ fuel →
      (runLoop inertSem fuel st tr).trace = tr ++ es.map (fun e => (e.asn, e.cb)) := by
  intro es
  induction es with
  | nil =>
    intro st tr fuel hev _ _ _ hgo hfuel
    obtain ⟨f, rfl⟩ : ∃ f, fuel = f + 1 := ⟨fuel - 1, by omega⟩
    rw [runLoop_step_empty inertSem f st tr hgo hev]
    simp [RunRes.trace]
  | cons e rest ih =>
    intro st tr fuel hev hsort hfut htag hgo hfuel
    obtain ⟨f, rfl⟩ : ∃ f, fuel = f + 1 := ⟨fuel - 1, by omega⟩
    obtain ⟨c, hc⟩ : ∃ c, e.tag = some c :=
      Option.isSome_iff_exists.1 (htag e (List.mem_cons_self e rest))
    have hlt : st.asn < e.asn := hfut e (List.mem_cons_self e rest)
    have hass : ¬ (c.2 ≠ "_actionPauseSim" ∧ e.asn < st.asn) := by
      rintro ⟨_, h2⟩
      exact absurd h2 (not_lt.2 (le_of_lt hlt))
    rw [runLoop_step_batch inertSem f st tr e rest c hgo hev hc hass]
    have hpop :
        innerLoop inertSem (f + 1) { st with asn := e.asn } tr =
          innerLoop inertSem f { st with asn := e.asn, events := rest }
            (tr ++ [(e.asn, e.cb)]) := by
      rw [innerLoop_step_pop inertSem f { st with asn := e.asn } tr e rest
        (by simp [hev]) (by simp)]
      rfl
    rw [hpop]
    cases rest with
    | nil =>
      have hfone : ∃ f1, f = f1 + 1 := ⟨f - 1, by simp at hfuel; omega⟩
      obtain ⟨f1, rfl⟩ := hfone
      rw [innerLoop_step_empty inertSem f1
        { st with asn := e.asn, events := [] } (tr ++ [(e.asn, e.cb)]) (by simp)]
      simp [RunRes.trace]
    | cons r rs =>
      have hrgt : e.asn < r.asn :=
        (List.pairwise_cons.1 hsort).1 r (List.mem_cons_self r rs)
      obtain ⟨f1, rfl⟩ : ∃ f1, f = f1 + 1 := ⟨f - 1, by simp at hfuel; omega⟩
      rw [innerLoop_step_exit inertSem f1
        { st with asn := e.asn, events := r :: rs } (tr ++ [(e.asn, e.cb)]) r rs
        (by simp) (by simp; omega)]
      have := ih { st with asn := e.asn, events := r :: rs } (tr ++ [(e.asn, e.cb)])
        (f1 + 1) (by simp) (List.pairwise_cons.1 hsort).2
        (by
          intro x hx
          simpa using (List.pairwise_cons.1 hsort).1 x hx)
        (by
          intro x hx
          exact htag x (List.mem_cons_of_mem e hx))
        (by simp [hgo])
        (by simp at hfuel ⊢; omega)
      rw [this]
      simp

/-! ### Helper lemma: what a batch leaves behind -/

/-- A property of callback environments: each callback invocation leaves
the clock alone, keeps the queue sorted, and only ever holds events that
were already pending or whose time is at least the current clock.  All
engine callbacks acting through the scheduling API satisfy this (the API
inserts in sorted position and `assert asn > self.asn` keeps inserted
events in the strict future); the property even tolerates a callback
placing an event exactly at the current clock. -/
def TameSem (sem : CbSem) : Prop :=
  ∀ cb kw s s', sem cb kw s = some s' →
    s'.asn = s.asn ∧
    (∀ e ∈ s'.events, e ∈ s.events ∨ s.asn ≤ e.asn) ∧
    (s.events.Pairwise keyLE → s'.events.Pairwise keyLE)

theorem innerLoop_batch_invariant (sem : CbSem) (hsem : TameSem sem) :
    ∀ (fuel : Nat) (st st' : SimEngine) (tr tr' : List (Int × Nat)),
      innerLoop sem fuel st tr = .ok st' tr' →
      st.events.Pairwise keyLE →
      (∀ e ∈ st.events, st.asn ≤ e.asn) →
      st'.asn = st.asn ∧ (∀ e ∈ st'.events, st.asn < e.asn) ∧
        ∃ s, tr' = tr ++ s ∧ ∀ x ∈ s, x.1 = st.asn := by
  intro fuel
  induction fuel with
  | zero =>
    intro st st' tr tr' h
    rw [innerLoop] at h
    cases h
  | succ fuel ih =>
    intro st st' tr tr' h hsort hge
    match hev : st.events with
    | [] =>
      rw [innerLoop_step_empty sem fuel st tr hev] at h
      cases h
    | e :: rest =>
      by_cases hasn : e.asn = st.asn
      · rw [innerLoop_step_pop sem fuel st tr e rest hev hasn] at h
        cases hsem2 : sem e.cb e.kwargs { st with events := rest } with
        | none => rw [hsem2] at h; cases h
        | some st2 =>
          rw [hsem2] at h
          obtain ⟨ha2, hm2, hp2⟩ := hsem e.cb e.kwargs { st with events := rest } st2 hsem2
          have hsort2 : st2.events.Pairwise keyLE := by
            apply hp2
            simpa [hev] using (List.pairwise_cons.1 (hev ▸ hsort)).2
          have hge2 : ∀ x ∈ st2.events, st2.asn ≤ x.asn := by
            intro x hx
            rcases hm2 x hx with hx2 | hx2
            · simp only at hx2
              have := hge x (by rw [hev]; exact List.mem_cons_of_mem e hx2)
              simpa [ha2] using this
            · simpa [ha2] using hx2
          obtain ⟨ha', hb', s, hs, hsasn⟩ := ih st2 st' (tr ++ [(st.asn, e.cb)]) tr' h hsort2 hge2
          have hasn2 : st2.asn = st.asn := by simpa using ha2
          refine ⟨by rw [ha', hasn2], ?_, (st.asn, e.cb) :: s, ?_, ?_⟩
          · intro x hx
            have := hb' x hx
            rwa [hasn2] at this
          · simpa using hs
          · intro x hx
            rcases List.mem_cons.1 hx with rfl | hx
            · rfl
            · rw [← hasn2]; exact hsasn x hx
      · rw [innerLoop_step_exit sem fuel st tr e rest hev hasn] at h
        injection h with h1 h2
        subst h1; subst h2
        refine ⟨rfl, ?_, [], by simp, by simp⟩
        intro x hx
        rw [hev] at hx
        rcases List.mem_cons.1 hx with rfl | hx
        · exact lt_of_le_of_ne (hge x (by rw [hev]; exact List.mem_cons_self x rest))
            (by intro hcon; exact hasn hcon.symm)
        · have hkey : keyLE e x := (List.pairwise_cons.1 (hev ▸ hsort)).1 x hx
          have hle : e.asn ≤ x.asn := keyLE_asn hkey
          have helt : st.asn < e.asn :=
            lt_of_le_of_ne (hge e (by rw [hev]; exact List.mem_cons_self e rest))
              (by intro hcon; exact hasn hcon.symm)
          exact lt_of_lt_of_le helt hle

/-! ### Helper lemmas: tag-based removal and deduplication -/

theorem removeLoop_no_tagged_survivor (ca : Int) (g : Tag) (ex : Bool)
    (l : List Event) :
    ∀ e ∈ removeLoop ca (some g) ex l, e.tag = some g → ex = true ∧ e.asn = ca := by
  intro e he htag
  obtain ⟨-, hmiss⟩ := (mem_removeLoop ca (some g) ex e l).1 he
  unfold hitByRemove at hmiss
  push_neg at hmiss
  exact hmiss htag

theorem removeEvent_mem_iff (st : SimEngine) (t : Option Tag) (ex : Bool) (x : Event) :
    x ∈ (removeEvent st t ex).events ↔
      x ∈ st.events ∧ (x.tag = t → ex = true ∧ x.asn = st.asn) := by
  unfold removeEvent
  simp only
  rw [mem_removeLoop]
  unfold hitByRemove
  constructor
  · rintro ⟨hm, hh⟩
    push_neg at hh
    exact ⟨hm, hh⟩
  · rintro ⟨hm, hh⟩
    refine ⟨hm, ?_⟩
    push_neg
    exact hh

theorem scheduleAtAsn_tag_dedup {st st' : SimEngine} {a : Int} {cb : Nat} {g : Tag}
    {p : Int} {ex : Bool} {kw : Nat}
    (h : scheduleAtAsn st a cb (some g) p ex kw = some st') :
    st'.events.countP (fun e => decide (e.tag = some g ∧ e.asn ≠ st.asn)) = 1 ∧
    (∀ e ∈ st'.events, e.tag = some g → e.asn = st.asn → ex = true ∧ e ∈ st.events) ∧
    (ex = false → st'.events.countP (fun e => decide (e.tag = some g)) = 1) := by
  have hlt := scheduleAtAsn_lt h
  have hev := scheduleAtAsn_events h
  rw [if_pos (by rfl : (some g).isSome = true)] at hev
  refine ⟨?_, ?_, ?_⟩
  · rw [hev, insertLoop_countP]
    have h0 :
        (removeLoop st.asn (some g) ex st.events).countP
          (fun e => decide (e.tag = some g ∧ e.asn ≠ st.asn)) = 0 := by
      rw [List.countP_eq_zero]
      intro e he
      simp only [decide_eq_true_eq, not_and, not_not]
      intro htag
      exact ((removeLoop_no_tagged_survivor st.asn g ex st.events e he htag).2)
    rw [h0]
    have hne : a ≠ st.asn := by omega
    simp [hne]
  · intro e he htag hasn
    rw [hev] at he
    rcases (mem_insertLoop a p _ e _).1 he with rfl | he
    · simp only at hasn
      exact absurd hasn (by omega)
    · refine ⟨(removeLoop_no_tagged_survivor st.asn g ex st.events e he htag).1, ?_⟩
      exact ((mem_removeLoop st.asn (some g) ex e st.events).1 he).1
  · intro hex
    subst hex
    rw [hev, insertLoop_countP]
    have h0 :
        (removeLoop st.asn (some g) false st.events).countP
          (fun e => decide (e.tag = some g)) = 0 := by
      rw [List.countP_eq_zero]
      intro e he
      simp only [decide_eq_true_eq]
      intro htag
      exact absurd (removeLoop_no_tagged_survivor st.asn g false st.events e he htag).1
        (by simp)
    rw [h0]
    simp

/-! ## Claim theorems -/

/-- C3: for every time value `X` with `X <= Clock`, `scheduleAtAsn` at
time `X` fails its precondition check (`assert asn > self.asn`, a fatal
AssertionError, modelled as the `none` outcome) and does not insert any
event: the assertion runs before any removal or insertion, so no
mutation happens. -/
theorem c3_schedule_not_future_asserts (st : SimEngine) (x : Int) (cb : Nat)
    (t : Option Tag) (p : Int) (ex : Bool) (kw : Nat) (h : x ≤ st.asn) :
    scheduleAtAsn st x cb t p ex kw = none := by
  unfold scheduleAtAsn
  rw [if_neg (not_lt.2 h)]

/-- Witness for C3 at the concrete input `X = 0` against a fresh engine
(Clock `= 0`). -/
theorem c3_schedule_not_future_asserts_witness :
    (0 : Int) ≤ initEngine.asn ∧ scheduleAtAsn initEngine 0 5 none 0 true 0 = none :=
  ⟨by decide, c3_schedule_not_future_asserts initEngine 0 5 none 0 true 0 (by decide)⟩

/-- C9 counterexample: at Clock `= 0`, `delay = -3`, `slotDuration = 2`,
the code computes `int(0 + (-3)/2) = int(-1.5) = -1` (Python `int()`
truncates toward zero; all intermediate float values here are exactly
representable), while `Clock + floor(delay / slotDuration) = -2`.  So
`scheduleIn` does not always compute `Clock + floor(delay /
slotDuration)`. -/
theorem c9_counterexample :
    scheduleInAsn initEngine 2 (-3) = -1 ∧
      (initEngine.asn : Int) + ⌊((-3 : ℚ) / 2)⌋ = -2 ∧
      scheduleInAsn initEngine 2 (-3) ≠
        initEngine.asn + ⌊((-3 : ℚ) / 2)⌋ := by
  have h1 : scheduleInAsn initEngine 2 (-3) = -1 := by
    unfold scheduleInAsn pyTrunc initEngine
    simp only
    rw [if_neg (by norm_num)]
    rw [show ((0 : Int) : ℚ) + (-3) / 2 = -(3 / 2) by norm_num, Int.ceil_neg]
    norm_num
  have h2 : (initEngine.asn : Int) + ⌊((-3 : ℚ) / 2)⌋ = -2 := by
    norm_num [initEngine]
  exact ⟨h1, h2, by rw [h1, h2]; decide⟩

/-- C9 (amended): for every nonnegative `delay`, positive
`slotDuration`, and nonnegative Clock (the Clock is nonnegative in every
reachable state), `scheduleIn` computes the absolute time `Clock +
floor(delay / slotDuration)` and delegates to `scheduleAtAsn` with that
time and the unchanged callback, tag, priority, exceptCurrent flag and
kwargs; for negative quotients the code truncates toward zero instead of
flooring. -/
theorem c9_schedule_in_floor (st : SimEngine) (slotDuration delay : ℚ) (cb : Nat)
    (t : Option Tag) (p : Int) (ex : Bool) (kw : Nat)
    (hasn : 0 ≤ st.asn) (hslot : 0 < slotDuration) (hdelay : 0 ≤ delay) :
    scheduleInAsn st slotDuration delay = st.asn + ⌊delay / slotDuration⌋ ∧
      scheduleIn st slotDuration delay cb t p ex kw =
        scheduleAtAsn st (st.asn + ⌊delay / slotDuration⌋) cb t p ex kw := by
  have hq : (0 : ℚ) ≤ delay / slotDuration := div_nonneg hdelay (le_of_lt hslot)
  have hcast : (0 : ℚ) ≤ (st.asn : ℚ) := by exact_mod_cast hasn
  have h0 : (0 : ℚ) ≤ (st.asn : ℚ) + delay / slotDuration := by linarith
  have h1 : scheduleInAsn st slotDuration delay = st.asn + ⌊delay / slotDuration⌋ := by
    unfold scheduleInAsn pyTrunc
    rw [if_pos h0, Int.floor_int_add]
  exact ⟨h1, by unfold scheduleIn; rw [h1]⟩

/-- Witness for C9 (amended) at Clock `= 0`, `slotDuration = 2`,
`delay = 3`: the computed time is `0 + floor(3/2) = 1`. -/
theorem c9_schedule_in_floor_witness :
    scheduleInAsn initEngine 2 3 = initEngine.asn + ⌊((3 : ℚ) / 2)⌋ ∧
      scheduleIn initEngine 2 3 4 none 0 true 0 =
        scheduleAtAsn initEngine (initEngine.asn + ⌊((3 : ℚ) / 2)⌋) 4 none 0 true 0 :=
  c9_schedule_in_floor initEngine 2 3 4 none 0 true 0 (by decide) (by norm_num)
    (by norm_num)

/-- C7 counterexample: from a fresh engine, `pauseAtAsn(10)` leaves a
pause sentinel pending and the engine not paused; a second
`pauseAtAsn(20)` is then not a no-op — it removes the pending sentinel
and schedules a new one at 20.  This falsifies "pauseAtAsn is a no-op
when a pause is already pending". -/
theorem c7_counterexample :
    pauseAtAsn initEngine 10 = some pausePendingSt ∧
      pausePendingSt.simPaused = false ∧
      (∃ e ∈ pausePendingSt.events, e.tag = some pauseSimTag) ∧
      pauseAtAsn pausePendingSt 20 = some pauseMovedSt ∧
      pauseMovedSt ≠ pausePendingSt := by
  refine ⟨?_, ?_, ?_, ?_, ?_⟩ <;> decide

/-- C7 (amended): `pauseAtAsn` is a no-op when a pause is already ACTIVE
(the paused flag is set); when the engine is not paused — even with a
pause merely pending — the call (re)schedules the sentinel under the
reserved tag, and afterwards exactly one pending sentinel lies away from
the current Clock (a sentinel at the current Clock can additionally
survive through the `exceptCurrentASN` exemption, and any such survivor
was already pending).  `play()`, when paused, clears the flag and
releases the pause semaphore exactly once; when not paused it is a
no-op. -/
theorem c7_pause_play_amended :
    (∀ (st : SimEngine) (a : Int), st.simPaused = true → pauseAtAsn st a = some st) ∧
    (∀ (st st' : SimEngine) (a : Int), st.simPaused = false →
      pauseAtAsn st a = some st' →
      st'.events.countP
        (fun e => decide (e.tag = some pauseSimTag ∧ e.asn ≠ st.asn)) = 1 ∧
      (∀ e ∈ st'.events, e.tag = some pauseSimTag → e.asn = st.asn → e ∈ st.events)) ∧
    (∀ st : SimEngine, st.simPaused = true →
      play st = { st with simPaused := false, pauseSemCount := st.pauseSemCount + 1 }) ∧
    (∀ st : SimEngine, st.simPaused = false → play st = st) := by
  refine ⟨?_, ?_, ?_, ?_⟩
  · intro st a hp
    unfold pauseAtAsn
    rw [if_pos hp]
  · intro st st' a hp hcall
    unfold pauseAtAsn at hcall
    rw [if_neg (by simp [hp])] at hcall
    obtain ⟨h1, h2, -⟩ := scheduleAtAsn_tag_dedup hcall
    exact ⟨h1, fun e he htag hasn => (h2 e he htag hasn).2⟩
  · intro st hp
    unfold play actionResumeSim
    rw [if_pos hp]
  · intro st hp
    unfold play actionResumeSim
    rw [if_neg (by simp [hp])]

/-- Witness for C7 (amended): a paused engine ignores `pauseAtAsn`;
after `pauseAtAsn(10)` on a fresh engine exactly one sentinel is
pending; `play()` on a paused engine releases the semaphore once;
`play()` on a fresh engine does nothing. -/
theorem c7_pause_play_amended_witness :
    pauseAtAsn pausedSt 99 = some pausedSt ∧
      pausePendingSt.events.countP
        (fun e => decide (e.tag = some pauseSimTag ∧ e.asn ≠ initEngine.asn)) = 1 ∧
      play pausedSt =
        { pausedSt with simPaused := false, pauseSemCount := pausedSt.pauseSemCount + 1 } ∧
      play initEngine = initEngine :=
  ⟨c7_pause_play_amended.1 pausedSt 99 (by decide),
   (c7_pause_play_amended.2.1 initEngine pausePendingSt 10 (by decide) (by decide)).1,
   c7_pause_play_amended.2.2.1 pausedSt (by decide),
   c7_pause_play_amended.2.2.2 initEngine (by decide)⟩

/-- C8 counterexample: construct from a fresh process, then `destroy()`.
The class attribute `_instance` still holds the object afterwards: the
writes `self._instance = None` and `self._init = False` land in the
instance `__dict__` and are erased together with it by
`del self.__dict__`, so the process-wide registry slot is NOT freed. -/
theorem c8_counterexample :
    construct initialProc false = some liveProc ∧
      destroy liveProc = deadProc ∧
      deadProc.clsInstance = true := by
  refine ⟨?_, ?_, ?_⟩ <;> decide

/-- C8 (amended): `destroy()` empties the instance `__dict__` but leaves
the registry slot occupied by the gutted object; a subsequent
construction nevertheless re-initializes — the `_init` lookup falls back
to the class attribute `False`, so `__init__` runs again — yielding
Clock `= 0` and an empty event queue regardless of the prior instance
state. -/
theorem c8_destroy_construct (d : InstDict) :
    (destroy { clsInstance := true, clsInit := false, obj := some d }).clsInstance = true ∧
    (destroy { clsInstance := true, clsInit := false, obj := some d }).obj = some emptyDict ∧
    construct (destroy { clsInstance := true, clsInit := false, obj := some d }) false =
      some liveProc ∧
    initEngine.asn = 0 ∧ initEngine.events = [] :=
  ⟨rfl, rfl, rfl, rfl, rfl⟩

/-- Witness for C8 (amended) at a dirty prior state (Clock 42, nonempty
queue, paused, hooks registered). -/
theorem c8_destroy_construct_witness :
    construct (destroy { clsInstance := true, clsInit := false, obj := some dirtyDict })
        false = some liveProc :=
  (c8_destroy_construct dirtyDict).2.2.1

/-- `scheduleAtEnd` appends, so a sequence of registrations yields the
hooks in registration order. -/
theorem scheduleAtEnd_foldl : ∀ (cbs : List Nat) (st : SimEngine),
    (cbs.foldl scheduleAtEnd st).endCb = st.endCb ++ cbs := by
  intro cbs
  induction cbs with
  | nil => intro st; simp
  | cons c rest ih =>
    intro st
    rw [List.foldl_cons, ih]
    simp [scheduleAtEnd]

/-- C6: the loop does stop normally — end hooks invoked in registration
order — when it finds the queue empty at the top of an iteration (first
conjunct); but a run whose last queued event is dispatched does NOT
reach that path: after the final `pop(0)` the inner loop evaluates
`self.events[0][0]` on the now-empty list and raises IndexError, and the
end hooks are skipped (third conjunct — the code bug).  The second
conjunct records that hooks are accumulated in registration order. -/
theorem c6_empty_queue_termination :
    runLoop inertSem 1 endHookSt [] = .ended endHookSt [] [9] ∧
      (∀ (cbs : List Nat) (st : SimEngine),
        (cbs.foldl scheduleAtEnd st).endCb = st.endCb ++ cbs) ∧
      runLoop inertSem 4 lastEventSt [] = .indexError lastEventResSt [(1, 7)] :=
  ⟨by decide, scheduleAtEnd_foldl, by decide⟩

/-- C10 counterexample: in `mixedTagSt` the queue holds a tagged event
(callback 1) and an untagged event (callback 2), both at time 5.  The
untagged event IS dispatched — it appears in the trace — because the
`c[1]` subscript check only examines the queue head at the start of an
iteration, never mid-batch.  This falsifies "every event the run loop
can dispatch must carry a subscriptable (pair) tag". -/
theorem c10_counterexample :
    mixedTagSt.events.map (fun e => e.tag) = [some (none, "tagged"), none] ∧
      (runLoop inertSem 4 mixedTagSt []).trace = [(5, 1), (5, 2)] := by
  refine ⟨?_, ?_⟩ <;> decide

/-- The dispatch continuation of one run-loop iteration only appends to
the trace, whatever the batch outcome. -/
theorem runLoop_batchMatch_trace_extend (sem : CbSem) (fuelIn fuelOut : Nat)
    (st3 : SimEngine) (l : List (Int × Nat)) :
    ∃ s, (match innerLoop sem fuelIn st3 l with
          | .ok st2 tr2 => runLoop sem fuelOut st2 tr2
          | .indexError st2 tr2 => RunRes.indexError st2 tr2
          | .cbError st2 tr2 => RunRes.cbError st2 tr2
          | .outOfFuel st2 tr2 => RunRes.outOfFuel st2 tr2).trace = l ++ s := by
  obtain ⟨s1, hs1⟩ := innerLoop_trace_extend sem fuelIn st3 l
  cases hinner : innerLoop sem fuelIn st3 l with
  | ok stx trx =>
    rw [hinner] at hs1
    simp only [BatchRes.trace] at hs1
    obtain ⟨s2, hs2⟩ := runLoop_trace_extend sem fuelOut stx trx
    exact ⟨s1 ++ s2, by rw [hs2, hs1, List.append_assoc]⟩
  | indexError stx trx =>
    rw [hinner] at hs1
    simp only [BatchRes.trace] at hs1
    exact ⟨s1, by simpa [RunRes.trace] using hs1⟩
  | cbError stx trx =>
    rw [hinner] at hs1
    simp only [BatchRes.trace] at hs1
    exact ⟨s1, by simpa [RunRes.trace] using hs1⟩
  | outOfFuel stx trx =>
    rw [hinner] at hs1
    simp only [BatchRes.trace] at hs1
    exact ⟨s1, by simpa [RunRes.trace] using hs1⟩

/-- C10 (amended): whenever the event at the HEAD of the queue at the
start of a loop iteration was scheduled without a tag, the
pause-sentinel exemption test subscripts `None` and raises TypeError
instead of dispatching it (first conjunct, for any callback
environment); but an untagged event that shares its time-batch with an
earlier tagged event is dispatched normally (second conjunct), so an
event the run loop dispatches need not carry a subscriptable tag — only
an event standing at the head when an iteration begins must. -/
theorem c10_untagged_head_amended :
    (∀ (sem : CbSem) (fuel : Nat) (st : SimEngine) (tr : List (Int × Nat))
        (e : Event) (rest : List Event),
      st.goOn = true → st.events = e :: rest → e.tag = none →
      runLoop sem (fuel + 1) st tr = .typeError st tr) ∧
    (∀ (fuel : Nat) (st : SimEngine) (tr : List (Int × Nat))
        (e1 e2 : Event) (rs : List Event) (c : Tag),
      st.goOn = true → st.events = e1 :: e2 :: rs → e1.tag = some c →
      st.asn ≤ e1.asn → e2.asn = e1.asn →
      ∃ s, (runLoop inertSem (fuel + 1 + 1) st tr).trace =
        tr ++ (e1.asn, e1.cb) :: (e1.asn, e2.cb) :: s) := by
  constructor
  · intro sem fuel st tr e rest hgo hev htag
    exact runLoop_step_typeError sem fuel st tr e rest hgo hev htag
  · intro fuel st tr e1 e2 rs c hgo hev htag hle hasn2
    have hass : ¬ (c.2 ≠ "_actionPauseSim" ∧ e1.asn < st.asn) := by
      rintro ⟨-, h2⟩
      exact absurd h2 (not_lt.2 hle)
    have h1 : innerLoop inertSem (fuel + 1 + 1) { st with asn := e1.asn } tr =
        innerLoop inertSem (fuel + 1) { st with asn := e1.asn, events := e2 :: rs }
          (tr ++ [(e1.asn, e1.cb)]) := by
      rw [innerLoop_step_pop inertSem (fuel + 1) { st with asn := e1.asn } tr e1
        (e2 :: rs) (by simp [hev]) (by simp)]
      simp [inertSem]
    have h2 : innerLoop inertSem (fuel + 1)
        { st with asn := e1.asn, events := e2 :: rs } (tr ++ [(e1.asn, e1.cb)]) =
        innerLoop inertSem fuel { st with asn := e1.asn, events := rs }
          (tr ++ [(e1.asn, e1.cb)] ++ [(e1.asn, e2.cb)]) := by
      rw [innerLoop_step_pop inertSem fuel { st with asn := e1.asn, events := e2 :: rs }
        (tr ++ [(e1.asn, e1.cb)]) e2 rs (by simp) (by simp [hasn2])]
      simp [inertSem]
    rw [runLoop_step_batch inertSem (fuel + 1) st tr e1 (e2 :: rs) c hgo hev htag hass]
    rw [h1, h2]
    obtain ⟨s, hs⟩ := runLoop_batchMatch_trace_extend inertSem fuel (fuel + 1)
      { st with asn := e1.asn, events := rs } (tr ++ [(e1.asn, e1.cb)] ++ [(e1.asn, e2.cb)])
    exact ⟨s, by rw [hs]; simp⟩

/-- Witness for C10 (amended): an untagged head raises TypeError on the
concrete state `untaggedHeadSt`; on `mixedTagSt` (tagged head, untagged
batch mate at the same time 5) the first two dispatches are callbacks 1
and 2, so the untagged event is dispatched. -/
theorem c10_untagged_head_amended_witness :
    runLoop inertSem 1 untaggedHeadSt [] = .typeError untaggedHeadSt [] ∧
      ∃ s, (runLoop inertSem 4 mixedTagSt []).trace = (5, 1) :: (5, 2) :: s := by
  constructor
  · exact c10_untagged_head_amended.1 inertSem 0 untaggedHeadSt [] (mkEv 5 2 none) []
      (by decide) (by decide) (by decide)
  · have h := c10_untagged_head_amended.2 2 mixedTagSt []
      (mkEv 5 1 (some (none, "tagged"))) (mkEv 5 2 none) [] (none, "tagged")
      (by decide) (by decide) (by decide) (by decide) (by decide)
    simpa [mkEv] using h

/-- C1: for a queue of tagged events at strictly increasing future
times, with callbacks that do not touch the engine, the run loop
dispatches every event in queue order — strictly increasing time order —
and the Clock read at the moment of each invocation equals that event's
time (the trace records `self.asn` at the call); hence the dispatch-time
Clock values are strictly increasing, in particular monotonically
non-decreasing.  The remaining conjuncts show the Clock is mutated only
by the run loop: every public scheduling/cancellation/pause operation
leaves `self.asn` unchanged. -/
theorem c1_run_dispatch_order (st : SimEngine) (fuel : Nat)
    (hsort : st.events.Pairwise (fun a b => a.asn < b.asn))
    (hfut : ∀ e ∈ st.events, st.asn < e.asn)
    (htag : ∀ e ∈ st.events, e.tag.isSome = true)
    (hgo : st.goOn = true)
    (hfuel : st.events.length + 1 ≤ fuel) :
    (runLoop inertSem fuel st []).trace = st.events.map (fun e => (e.asn, e.cb)) ∧
    ((runLoop inertSem fuel st []).trace.map Prod.fst).Pairwise (fun x y => x < y) ∧
    (∀ (s s' : SimEngine) (a : Int) (cb : Nat) (t : Option Tag) (p : Int) (ex : Bool)
        (kw : Nat), scheduleAtAsn s a cb t p ex kw = some s' → s'.asn = s.asn) ∧
    (∀ (s : SimEngine) (t : Option Tag) (ex : Bool), (removeEvent s t ex).asn = s.asn) ∧
    (∀ (s s' : SimEngine) (sd d : ℚ) (cb : Nat) (t : Option Tag) (p : Int) (ex : Bool)
        (kw : Nat), scheduleIn s sd d cb t p ex kw = some s' → s'.asn = s.asn) ∧
    (∀ s : SimEngine, (play s).asn = s.asn) ∧
    (∀ (s s' : SimEngine) (a : Int), pauseAtAsn s a = some s' → s'.asn = s.asn) ∧
    (∀ (s : SimEngine) (cb : Nat),
      (scheduleAtStart s cb).asn = s.asn ∧ (scheduleAtEnd s cb).asn = s.asn) := by
  have hmain := runLoop_inert_dispatch st.events st [] fuel rfl hsort hfut htag hgo hfuel
  rw [List.nil_append] at hmain
  refine ⟨hmain, ?_, ?_, ?_, ?_, ?_, ?_, ?_⟩
  · rw [hmain, List.map_map]
    exact hsort.map _ (fun a b h => h)
  · intro s s' a cb t p ex kw h
    exact (scheduleAtAsn_fields h).1
  · intro s t ex
    rfl
  · intro s s' sd d cb t p ex kw h
    unfold scheduleIn at h
    exact (scheduleAtAsn_fields h).1
  · intro s
    unfold play actionResumeSim
    split <;> rfl
  · intro s s' a h
    unfold pauseAtAsn at h
    split at h
    · injection h with h
      rw [← h]
    · exact (scheduleAtAsn_fields h).1
  · intro s cb
    exact ⟨rfl, rfl⟩

/-- Witness for C1 on the concrete queue `twoEventSt` (tagged events at
times 3 and 5, callbacks 7 and 8). -/
theorem c1_run_dispatch_order_witness :
    (runLoop inertSem 3 twoEventSt []).trace =
      twoEventSt.events.map (fun e => (e.asn, e.cb)) :=
  (c1_run_dispatch_order twoEventSt 3 (by decide) (by decide) (by decide) (by decide)
    (by decide)).1

/-- `applyOp` preserves sortedness of the queue. -/
theorem eventsSorted_applyOp (st : SimEngine) (op : SchedOp)
    (h : EventsSorted st.events) : EventsSorted ((applyOp st op).events) := by
  cases op with
  | sched a p c t ex k =>
    cases hs : scheduleAtAsn st a c t p ex k with
    | none => simpa [applyOp, hs] using h
    | some st' =>
      have hev := scheduleAtAsn_events hs
      simp only [applyOp, hs, Option.getD_some]
      unfold EventsSorted
      rw [hev]
      apply pairwise_insertLoop a p _ rfl rfl
      split
      · exact pairwise_removeLoop _ _ _ _ h
      · exact h
  | rem t ex =>
    simp only [applyOp]
    exact pairwise_removeLoop _ _ _ _ h

/-- Sortedness is preserved along any operation sequence. -/
theorem eventsSorted_foldl : ∀ (ops : List SchedOp) (st : SimEngine),
    EventsSorted st.events → EventsSorted ((ops.foldl applyOp st).events) := by
  intro ops
  induction ops with
  | nil => intro st h; simpa using h
  | cons op rest ih =>
    intro st h
    rw [List.foldl_cons]
    exact ih (applyOp st op) (eventsSorted_applyOp st op h)

/-- C2: after any sequence of scheduling and removal operations from a
fresh engine, the queue is sorted by (time ascending, priority
ascending) — first conjunct; and each successful insertion into a sorted
queue places the new event after every surviving event that sorts no
later than it, in particular after every event with equal (time,
priority): the queue splits as `pre ++ new :: post` where `pre ++ post`
is the prior queue (in its original order, after any tag removal) and no
event of `post` has the new event's (time, priority).  Since dispatch
pops from the front, events with equal (time, priority) are dispatched
first-scheduled-first. -/
theorem c2_queue_sorted_fifo :
    (∀ ops : List SchedOp, EventsSorted ((ops.foldl applyOp initEngine).events)) ∧
    (∀ (st st' : SimEngine) (a p : Int) (cb kw : Nat) (t : Option Tag) (ex : Bool),
      EventsSorted st.events →
      scheduleAtAsn st a cb t p ex kw = some st' →
      EventsSorted st'.events ∧
      ∃ pre post,
        st'.events =
          pre ++ { asn := a, prio := p, cb := cb, tag := t, kwargs := kw } :: post ∧
        pre ++ post = (if t.isSome then removeLoop st.asn t ex st.events
                       else st.events) ∧
        ∀ e ∈ post, ¬ (e.asn = a ∧ e.prio = p)) := by
  constructor
  · intro ops
    exact eventsSorted_foldl ops initEngine (by simp [initEngine, EventsSorted])
  · intro st st' a p cb kw t ex hsorted hs
    have hev := scheduleAtAsn_events hs
    have hbase :
        EventsSorted (if t.isSome then removeLoop st.asn t ex st.events
                      else st.events) := by
      unfold EventsSorted
      split
      · exact pairwise_removeLoop _ _ _ _ hsorted
      · exact hsorted
    refine ⟨?_,
      (if t.isSome = true then removeLoop st.asn t ex st.events
       else st.events).takeWhile (fun e => decide (insBefore a p e)),
      (if t.isSome = true then removeLoop st.asn t ex st.events
       else st.events).dropWhile (fun e => decide (insBefore a p e)), ?_, ?_, ?_⟩
    · unfold EventsSorted
      rw [hev]
      exact pairwise_insertLoop a p _ rfl rfl _ hbase
    · rw [hev, insertLoop_decomp]
    · exact List.takeWhile_append_dropWhile _ _
    · exact dropWhile_no_equal_key a p _ hbase

/-- Witness for C2: the spec's worked example leaves a sorted queue, and
scheduling a second (time 5, priority 0) event after an existing one
yields the FIFO decomposition. -/
theorem c2_queue_sorted_fifo_witness :
    EventsSorted ((exampleOps.foldl applyOp initEngine).events) ∧
      (EventsSorted fifoResSt.events ∧
        ∃ pre post,
          fifoResSt.events =
            pre ++ { asn := 5, prio := 0, cb := 2, tag := none, kwargs := 0 } :: post ∧
          pre ++ post = (if (none : Option Tag).isSome then
                           removeLoop fifoSt.asn none true fifoSt.events
                         else fifoSt.events) ∧
          ∀ e ∈ post, ¬ (e.asn = 5 ∧ e.prio = 0)) :=
  ⟨c2_queue_sorted_fifo.1 exampleOps,
   c2_queue_sorted_fifo.2 fifoSt fifoResSt 5 0 2 0 none true (by decide) (by decide)⟩

/-- C4: scheduling under a tag deduplicates — after the call exactly one
pending event carries that tag away from the current Clock, any other
survivor with the tag sits at the current Clock, was already pending,
and can only survive when `exceptCurrentASN` holds, and with the
exemption disabled exactly one event with the tag is pending at all
(first conjunct); `removeEvent` keeps an event iff it was pending and,
when it matches the tag, only under the current-batch exemption (second
conjunct); untagged events are never removed by a tag-carrying
`removeEvent` (third), never removed by tagged rescheduling (fourth),
and untagged scheduling removes nothing (fifth). -/
theorem c4_unique_tag_dedup :
    (∀ (st st' : SimEngine) (a p : Int) (cb kw : Nat) (g : Tag) (ex : Bool),
      scheduleAtAsn st a cb (some g) p ex kw = some st' →
      st'.events.countP (fun e => decide (e.tag = some g ∧ e.asn ≠ st.asn)) = 1 ∧
      (∀ e ∈ st'.events, e.tag = some g → e.asn = st.asn → ex = true ∧ e ∈ st.events) ∧
      (ex = false → st'.events.countP (fun e => decide (e.tag = some g)) = 1)) ∧
    (∀ (st : SimEngine) (t : Option Tag) (ex : Bool) (x : Event),
      x ∈ (removeEvent st t ex).events ↔
        x ∈ st.events ∧ (x.tag = t → ex = true ∧ x.asn = st.asn)) ∧
    (∀ (st : SimEngine) (g : Tag) (ex : Bool) (x : Event), x.tag = none →
      (x ∈ (removeEvent st (some g) ex).events ↔ x ∈ st.events)) ∧
    (∀ (st st' : SimEngine) (a p : Int) (cb kw : Nat) (g : Tag) (ex : Bool),
      scheduleAtAsn st a cb (some g) p ex kw = some st' →
      ∀ x : Event, x.tag = none → (x ∈ st'.events ↔ x ∈ st.events)) ∧
    (∀ (st st' : SimEngine) (a p : Int) (cb kw : Nat) (ex : Bool),
      scheduleAtAsn st a cb none p ex kw = some st' →
      ∀ x ∈ st.events, x ∈ st'.events) := by
  refine ⟨?_, ?_, ?_, ?_, ?_⟩
  · intro st st' a p cb kw g ex hs
    exact scheduleAtAsn_tag_dedup hs
  · intro st t ex x
    exact removeEvent_mem_iff st t ex x
  · intro st g ex x hx
    rw [removeEvent_mem_iff]
    simp [hx]
  · intro st st' a p cb kw g ex hs x hx
    have hev := scheduleAtAsn_events hs
    rw [if_pos (by rfl : (some g).isSome = true)] at hev
    rw [hev, mem_insertLoop]
    constructor
    · rintro (rfl | hm)
      · exact absurd hx (by simp)
      · exact ((mem_removeLoop st.asn (some g) ex x st.events).1 hm).1
    · intro hm
      right
      rw [mem_removeLoop]
      refine ⟨hm, ?_⟩
      unfold hitByRemove
      rintro ⟨htg, -⟩
      rw [hx] at htg
      cases htg
  · intro st st' a p cb kw ex hs x hx
    have hev := scheduleAtAsn_events hs
    rw [if_neg (by simp)] at hev
    rw [hev, mem_insertLoop]
    exact Or.inr hx

/-- Witness for C4: rescheduling the tag `(None,'dup')` from `dupTagSt`
(two pending events under the tag) to time 9 leaves exactly one pending
event under the tag. -/
theorem c4_unique_tag_dedup_witness :
    scheduleAtAsn dupTagSt 9 5 (some (none, "dup")) 0 true 0 = some dupTagResSt ∧
      dupTagResSt.events.countP
        (fun e => decide (e.tag = some ((none : Option String), "dup") ∧
          e.asn ≠ dupTagSt.asn)) = 1 :=
  ⟨by decide,
   (c4_unique_tag_dedup.1 dupTagSt dupTagResSt 9 0 5 0 (none, "dup") true (by decide)).1⟩

/-- The worked callback environment `batchSem` is tame: callback 1
inserts (in sorted position) an event at the clock of the state it runs
in; every other callback is inert. -/
theorem batchSem_tame : TameSem batchSem := by
  intro cb kw s s' h
  unfold batchSem at h
  by_cases hcb : cb = 1
  · rw [if_pos hcb] at h
    injection h with h
    subst h
    refine ⟨rfl, ?_, ?_⟩
    · intro e he
      simp only at he
      rcases (mem_insertLoop s.asn 0 (mkEv s.asn 2 (some (none, "bw"))) e s.events).1 he
        with rfl | he
      · right
        simp [mkEv]
      · exact Or.inl he
    · intro hs
      exact pairwise_insertLoop s.asn 0 _ rfl rfl s.events hs
  · rw [if_neg hcb] at h
    injection h with h
    subst h
    exact ⟨rfl, fun e he => Or.inl he, fun hs => hs⟩

/-- C5: during a batch — the inner loop dispatching at a fixed Clock —
every state change a callback makes to the queue is observed before the
loop advances: when the inner loop exits normally the Clock is unchanged
and NO pending event is left at the current Clock (each event at the
batch time, including ones a callback scheduled at the current Clock,
was dispatched or removed), and every dispatch of the batch was stamped
with the batch's Clock.  Cancellations act on the threaded state, so a
removed event is gone immediately.  The callback environment is only
assumed tame: callbacks keep the Clock, keep the queue sorted, and add
no event in the strict past (the scheduling API guarantees strictly
future insertions; tameness even tolerates insertions exactly at the
current Clock). -/
theorem c5_batch_observes_current_asn (sem : CbSem) (fuel : Nat)
    (st st' : SimEngine) (tr tr' : List (Int × Nat))
    (hsem : TameSem sem)
    (hsort : st.events.Pairwise keyLE)
    (hge : ∀ e ∈ st.events, st.asn ≤ e.asn)
    (h : innerLoop sem fuel st tr = .ok st' tr') :
    st'.asn = st.asn ∧ (∀ e ∈ st'.events, st.asn < e.asn) ∧
      ∃ s, tr' = tr ++ s ∧ ∀ x ∈ s, x.1 = st.asn :=
  innerLoop_batch_invariant sem hsem fuel st st' tr tr' h hsort hge

/-- Witness for C5: from `batchSt` (Clock 5, an event at 5 whose
callback schedules another event at the current Clock 5, and an event at
7), the batch dispatches both time-5 events — including the one
scheduled mid-batch — before exiting with only the time-7 event
pending. -/
theorem c5_batch_observes_current_asn_witness :
    innerLoop batchSem 4 batchSt [] = .ok batchResSt [(5, 1), (5, 2)] ∧
      (batchResSt.asn = batchSt.asn ∧
        (∀ e ∈ batchResSt.events, batchSt.asn < e.asn) ∧
        ∃ s, [((5 : Int), (1 : Nat)), (5, 2)] = [] ++ s ∧ ∀ x ∈ s, x.1 = batchSt.asn) :=
  ⟨by decide,
   c5_batch_observes_current_asn batchSem 4 batchSt batchResSt [] [(5, 1), (5, 2)]
     batchSem_tame (by decide) (by decide) (by decide)⟩

end SixTisch
